import Mathlib

/-!
Verification of the smtrack-logging ingestion-normalization-and-delivery
pipeline.  The definitions below are a shallow embedding of the two core
source files: the MQTT subscriber service (normalization and severity
classification) and the Loki service (batch buffer, flush/retry policy and
stream grouping).  JavaScript runtime values are modelled as follows:
JSON values are an inductive type with integers for numbers; JavaScript
object field access is an Except computation (access on null throws);
dates are epoch-millisecond integers; the network send is a parameter.
-/

/-- JSON values as produced by a successful JSON.parse call.  Numbers are
modelled as integers. -/
inductive Json where
  | null : Json
  | bool (b : Bool) : Json
  | num (n : Int) : Json
  | str (s : String) : Json
  | arr (items : List Json) : Json
  | obj (fields : List (String × Json)) : Json

/-- JavaScript truthiness of a JSON value: null, false, 0 and the empty
string are falsy; arrays and objects are always truthy. -/
def Json.truthy : Json → Bool
  | Json.null => false
  | Json.bool b => b
  | Json.num n => decide (n ≠ 0)
  | Json.str s => decide (s ≠ "")
  | Json.arr _ => true
  | Json.obj _ => true

/-- First binding of a key in a JavaScript object field list. -/
def lookupField : List (String × Json) → String → Option Json
  | [], _ => none
  | (k, v) :: t, key => if k = key then some v else lookupField t key

/-- JavaScript member access on a JSON value: reading a property of null
throws a TypeError; reading an absent property of an object, or any
property of a number, string, boolean or array, yields undefined (none). -/
def Json.getField : Json → String → Except String (Option Json)
  | Json.null, k => Except.error ("TypeError: cannot read properties of null reading " ++ k)
  | Json.obj fields, key => Except.ok (lookupField fields key)
  | _, _ => Except.ok none

/-- Hexadecimal digit used by the control-character escapes of
JSON.stringify. -/
def hexDigit (n : Nat) : String :=
  if n = 0 then "0" else if n = 1 then "1" else if n = 2 then "2"
  else if n = 3 then "3" else if n = 4 then "4" else if n = 5 then "5"
  else if n = 6 then "6" else if n = 7 then "7" else if n = 8 then "8"
  else if n = 9 then "9" else if n = 10 then "a" else if n = 11 then "b"
  else if n = 12 then "c" else if n = 13 then "d" else if n = 14 then "e"
  else "f"

/-- Escaping of one character inside a JSON string literal, following
JSON.stringify: quote, backslash, the named control escapes, and a
unicode escape for the remaining control characters. -/
def escapeChar (c : Char) : String :=
  if c = Char.ofNat 34 then "\\\""
  else if c = Char.ofNat 92 then "\\\\"
  else if c = Char.ofNat 10 then "\\n"
  else if c = Char.ofNat 9 then "\\t"
  else if c = Char.ofNat 13 then "\\r"
  else if c = Char.ofNat 8 then "\\b"
  else if c = Char.ofNat 12 then "\\f"
  else if c.toNat < 32 then "\\u00" ++ hexDigit (c.toNat / 16) ++ hexDigit (c.toNat % 16)
  else String.singleton c

/-- Escaping of a whole string for a JSON string literal. -/
def escapeJson (s : String) : String := String.join (s.toList.map escapeChar)

/-- Numeric value of a digit list. -/
def digitsVal (cs : List Char) : Nat :=
  cs.foldl (fun a c => a * 10 + (c.toNat - 48)) 0

/-- Canonical array-index test of JavaScript property ordering: a key of
decimal digits with no leading zero (or exactly zero) whose value is
below 2 to the 32nd minus one. -/
def isArrayIndex (k : String) : Bool :=
  let cs := k.toList
  decide (cs ≠ []) && cs.all Char.isDigit &&
    (decide (cs = [Char.ofNat 48]) || decide (cs.head? ≠ some (Char.ofNat 48))) &&
    decide (digitsVal cs < 4294967295)

/-- Ascending insertion of a binding among array-index bindings, by
numeric key value. -/
def insertIdx (p : String × α) : List (String × α) → List (String × α)
  | [] => [p]
  | q :: t =>
      if digitsVal p.1.toList < digitsVal q.1.toList then p :: q :: t
      else q :: insertIdx p t

/-- JavaScript own-property order of an object: array-index keys first
in ascending numeric order, then the remaining keys in insertion order.
JSON.stringify and object spread enumerate properties in this order. -/
def jsKeyOrder (fields : List (String × α)) : List (String × α) :=
  (fields.filter (fun p => isArrayIndex p.1)).foldl (fun acc p => insertIdx p acc) []
    ++ fields.filter (fun p => ¬ isArrayIndex p.1)

/-- Joining of serialized object fields with quoted keys. -/
def joinFields : List (String × String) → String
  | [] => ""
  | [(k, s)] => "\"" ++ escapeJson k ++ "\":" ++ s
  | (k, s) :: y :: t => "\"" ++ escapeJson k ++ "\":" ++ s ++ "," ++ joinFields (y :: t)

mutual

/-- Serialization of a JSON value, following JSON.stringify on values
that came out of JSON.parse: object fields are emitted in JavaScript
own-property order. -/
def Json.stringify : Json → String
  | Json.null => "null"
  | Json.bool true => "true"
  | Json.bool false => "false"
  | Json.num n => toString n
  | Json.str s => "\"" ++ escapeJson s ++ "\""
  | Json.arr items => "[" ++ stringifyItems items ++ "]"
  | Json.obj fields => "\x7b" ++ joinFields (jsKeyOrder (stringifyPairs fields)) ++ "\x7d"

/-- Comma-separated serialization of array items. -/
def stringifyItems : List Json → String
  | [] => ""
  | [x] => Json.stringify x
  | x :: y :: t => Json.stringify x ++ "," ++ stringifyItems (y :: t)

/-- Serialization of each object field value, keeping creation order;
the key ordering is applied on the result. -/
def stringifyPairs : List (String × Json) → List (String × String)
  | [] => []
  | (k, v) :: t => (k, Json.stringify v) :: stringifyPairs t

end

deriving instance DecidableEq for Except

/-- Lowercasing through the character list, mirroring toLowerCase on the
ASCII range. -/
def lowerText (s : String) : String := String.mk (s.toList.map Char.toLower)

/-- Membership of one character list in another as a contiguous run,
starting at the head. -/
def leadsWith : List Char → List Char → Bool
  | [], _ => true
  | _ :: _, [] => false
  | p :: ps, x :: xs => p = x && leadsWith ps xs

/-- Substring test on character lists. -/
def hasSub (pat : List Char) : List Char → Bool
  | [] => leadsWith pat []
  | x :: t => leadsWith pat (x :: t) || hasSub pat t

/-- JavaScript String.prototype.includes: substring containment. -/
def strHas (s pat : String) : Bool := hasSub pat.toList s.toList

/-- The LogSeverity string enum of the types module (export enum
LogSeverity): its members are the runtime strings debug, info, warning,
error and critical. -/
inductive LogSeverity where
  | debug | info | warning | error | critical
deriving DecidableEq

/-- String value of a LogSeverity enum member. -/
def LogSeverity.text : LogSeverity → String
  | LogSeverity.debug => "debug"
  | LogSeverity.info => "info"
  | LogSeverity.warning => "warning"
  | LogSeverity.error => "error"
  | LogSeverity.critical => "critical"

/-- Fixed alias table of mapToLogSeverity (the severityMap record). -/
def severityAlias : String → Option LogSeverity
  | "debug" => some LogSeverity.debug
  | "info" => some LogSeverity.info
  | "information" => some LogSeverity.info
  | "warn" => some LogSeverity.warning
  | "warning" => some LogSeverity.warning
  | "error" => some LogSeverity.error
  | "err" => some LogSeverity.error
  | "critical" => some LogSeverity.critical
  | "crit" => some LogSeverity.critical
  | "fatal" => some LogSeverity.critical
  | _ => none

/-- Outcome of the severityMap bracket lookup, prototype chain
included: an own entry yields its severity; the keys constructor and
proto-dunder (the only Object.prototype property names that are entirely
lowercase, hence reachable after toLowerCase) yield a truthy inherited
value that is not a severity; every other key is undefined. -/
inductive SeverityLookup where
  | found (s : LogSeverity)
  | protoJunk
  | undef
deriving DecidableEq

/-- JavaScript bracket access on the severityMap object literal,
consulting the prototype chain. -/
def severityMapGet (key : String) : SeverityLookup :=
  match severityAlias key with
  | some s => SeverityLookup.found s
  | none =>
      if key = "constructor" || key = "__proto__" then SeverityLookup.protoJunk
      else SeverityLookup.undef

/-- A classified severity at runtime: a genuine enum member, or the
truthy non-severity object leaked from the prototype chain, which the
source code stores wherever a LogSeverity is expected. -/
inductive SeverityValue where
  | sev (s : LogSeverity)
  | protoJunk
deriving DecidableEq

/-- Runtime text carried into string positions for a classified
severity.  A prototype-leaked value is not a string in the source
program — the field then holds that object; it is carried here as a
marker text, preserving the one fact the pipeline observes about it:
the value is truthy. -/
def SeverityValue.text : SeverityValue → String
  | SeverityValue.sev s => s.text
  | SeverityValue.protoJunk => "[prototype leak]"

/-- The mapToLogSeverity method on a dynamic argument: a falsy argument
(undefined, null, empty string, zero, false) yields undefined; a truthy
string is lowercased and looked up in severityMap including its
prototype chain; calling toLowerCase on a truthy non-string throws a
TypeError. -/
def mapToLogSeverity : Option Json → Except String SeverityLookup
  | none => Except.ok SeverityLookup.undef
  | some v =>
      if v.truthy then
        match v with
        | Json.str s => Except.ok (severityMapGet (lowerText s))
        | _ => Except.error "TypeError: severity.toLowerCase is not a function"
      else Except.ok SeverityLookup.undef

/-- The text a dynamic message value contributes to the keyword scan:
a string is used verbatim, anything else is serialized. -/
def contentText : Json → String
  | Json.str s => s
  | j => j.stringify

/-- Keyword scan of inferMessageType over the lowercased message text:
error, exception or fail mean error; otherwise warn means warning;
otherwise info. -/
def keywordScanText (text : String) : LogSeverity :=
  let lower := lowerText text
  if strHas lower "error" || strHas lower "exception" || strHas lower "fail" then
    LogSeverity.error
  else if strHas lower "warn" then LogSeverity.warning
  else LogSeverity.info

/-- The inferMessageType method: topic substring hints first, then a
truthy level field mapped through the alias table, then the keyword scan
of the serialized content, defaulting to info. -/
def inferMessageType (topic : String) (message : Json) : Except String SeverityValue :=
  if strHas topic "/error" || strHas topic "/alert" then
    Except.ok (SeverityValue.sev LogSeverity.error)
  else if strHas topic "/warning" || strHas topic "/warn" then
    Except.ok (SeverityValue.sev LogSeverity.warning)
  else if strHas topic "/debug" then Except.ok (SeverityValue.sev LogSeverity.debug)
  else
    match message.getField "level" with
    | Except.error e => Except.error e
    | Except.ok levelField =>
      match levelField with
      | some v =>
          if v.truthy then
            match mapToLogSeverity (some v) with
            | Except.error e => Except.error e
            | Except.ok (SeverityLookup.found s) => Except.ok (SeverityValue.sev s)
            | Except.ok SeverityLookup.protoJunk => Except.ok SeverityValue.protoJunk
            | Except.ok SeverityLookup.undef =>
                Except.ok (SeverityValue.sev (keywordScanText (contentText message)))
          else Except.ok (SeverityValue.sev (keywordScanText (contentText message)))
      | none => Except.ok (SeverityValue.sev (keywordScanText (contentText message)))

/-- Severity resolution of normalizeMessage: the explicit severity field
mapped through mapToLogSeverity, falling back to inferMessageType when
that yields undefined. -/
def classifySeverity (topic : String) (j : Json) : Except String SeverityValue :=
  match j.getField "severity" with
  | Except.error e => Except.error e
  | Except.ok severityField =>
    match mapToLogSeverity severityField with
    | Except.error e => Except.error e
    | Except.ok (SeverityLookup.found s) => Except.ok (SeverityValue.sev s)
    | Except.ok SeverityLookup.protoJunk => Except.ok SeverityValue.protoJunk
    | Except.ok SeverityLookup.undef => inferMessageType topic j

/-- JavaScript array indexing with a possibly negative index. -/
def jsElem (xs : List String) (i : Int) : Option String :=
  if i < 0 then none else xs.get? i.toNat

/-- JavaScript String.prototype.split on the slash separator, over the
character list: an empty input gives one empty segment, and every slash
starts a new segment. -/
def splitSlash : List Char → List String
  | [] => [""]
  | c :: t =>
      if c = Char.ofNat 47 then "" :: splitSlash t
      else
        match splitSlash t with
        | [] => [String.singleton c]
        | s :: rest => (String.singleton c ++ s) :: rest

/-- Segments of a topic, as topic.split on slash. -/
def topicParts (topic : String) : List String := splitSlash topic.toList

/-- The extractDeviceIdFromTopic method: split the topic on slash; with
at least three segments take the second, with exactly two take the first,
otherwise take the second-to-last if it exists and is truthy, else the
literal unknown. -/
def extractDeviceIdFromTopic (topic : String) : String :=
  let parts := topicParts topic
  if 3 ≤ parts.length then parts.getD 1 ""
  else if parts.length = 2 then parts.getD 0 ""
  else
    match jsElem parts ((parts.length : Int) - 2) with
    | some s => if s = "" then "unknown" else s
    | none => "unknown"

/-- The LogEntry class of the types module: message and device_id
strings, a severity that is a LogSeverity string enum value at runtime
(carried here as its string, the empty string standing for an absent
value, which the falsy checks of the source detect), the optional
timestamp as epoch milliseconds, and the optional label record as an
insertion-ordered pair list with the absent record as the empty list. -/
structure LogEntry where
  message : String
  device_id : String
  severity : String
  timestamp : Option Int
  labels : List (String × String)
deriving DecidableEq

/-- The IoTMessage class of the types module, as populated by
normalizeMessage: deviceId and message strings, the optional metadata
record and the optional timestamp as epoch milliseconds.  The class
declares severity as LogSeverity, but at runtime normalizeMessage can
also store the prototype-leaked non-severity value there, so the field
carries a SeverityValue. -/
structure IoTMessage where
  deviceId : String
  message : String
  severity : SeverityValue
  metadata : Option Json
  timestamp : Option Int

/-- Epoch milliseconds of a JavaScript Date built from a dynamic JSON
value: numeric values are used directly; construction from other shapes
(string date parsing) is a host-runtime concern abstracted to zero — no
claim depends on that value. -/
def jsDateValue : Json → Int
  | Json.num n => n
  | _ => 0

/-- The normalizeMessage method: device identity from the payload field
when truthy (a dynamic non-string value is carried as its text) else from
the topic; message text from an explicit string field else the payload
serialized; severity from classifySeverity; metadata passed through; the
timestamp field used when truthy else ingestion time.  Member accesses on
a null payload throw, modelled by the error branch. -/
def normalizeMessage (j : Json) (topic : String) (now : Int) : Except String IoTMessage :=
  match j.getField "deviceId" with
  | Except.error e => Except.error e
  | Except.ok dv =>
    let deviceId := match dv with
      | some v => if v.truthy then contentText v else extractDeviceIdFromTopic topic
      | none => extractDeviceIdFromTopic topic
    match j.getField "message" with
    | Except.error e => Except.error e
    | Except.ok mv =>
      let message := match mv with
        | some (Json.str s) => s
        | _ => j.stringify
      match classifySeverity topic j with
      | Except.error e => Except.error e
      | Except.ok severity =>
        match j.getField "metadata" with
        | Except.error e => Except.error e
        | Except.ok metadata =>
          match j.getField "timestamp" with
          | Except.error e => Except.error e
          | Except.ok tv =>
            let timestamp : Int := match tv with
              | some v => if v.truthy then jsDateValue v else now
              | none => now
            Except.ok
              { deviceId := deviceId, message := message, severity := severity,
                metadata := metadata, timestamp := some timestamp }

/-- The createPlainTextMessage method: the raw text becomes the message,
the device identity comes from the topic, and the severity is inferred
from topic and a singleton object holding the text. -/
def createPlainTextMessage (text : String) (topic : String) (now : Int) :
    Except String IoTMessage :=
  match inferMessageType topic (Json.obj [("message", Json.str text)]) with
  | Except.error e => Except.error e
  | Except.ok severity =>
      Except.ok
        { deviceId := extractDeviceIdFromTopic topic, message := text,
          severity := severity, metadata := none, timestamp := some now }

/-- The convertToLogEntry method: copies the normalized fields and builds
the label object with severity, device identity, a source tag and the
serialized metadata when present. -/
def convertToLogEntry (m : IoTMessage) (now : Int) : LogEntry :=
  { message := m.message
    device_id := m.deviceId
    severity := SeverityValue.text m.severity
    timestamp := some (m.timestamp.getD now)
    labels :=
      [("severity", SeverityValue.text m.severity), ("device_id", m.deviceId),
       ("source", "smtrack-logging")] ++
      (match m.metadata with
       | some md => [("metadata", md.stringify)]
       | none => []) }

/-- A raw bus payload decoded to text together with the outcome of
JSON.parse on it: some value on success, none when parsing threw. -/
structure RawPayload where
  raw : String
  parsed : Option Json

/-- The inner try block of handleMessage: a parsed payload is
normalized, and any throw inside that (a TypeError during normalization)
or a parse failure falls back to the plain-text message. -/
def innerNormalize (topic : String) (raw : String) (parsed : Option Json)
    (now : Int) : Except String IoTMessage :=
  match parsed with
  | some j =>
      match normalizeMessage j topic now with
      | Except.ok m => Except.ok m
      | Except.error _ => createPlainTextMessage raw topic now
  | none => createPlainTextMessage raw topic now

/-- The handleMessage method up to the entry handed to the buffer: the
normalization with its plain-text fallback, then conversion to a log
entry.  The outer Except layer records whether anything after the
fallback could still throw. -/
def handleMessage (topic : String) (p : RawPayload) (now : Int) :
    Except String LogEntry :=
  match innerNormalize topic p.raw p.parsed now with
  | Except.error e => Except.error e
  | Except.ok m => Except.ok (convertToLogEntry m now)

/-- The LokiStream interface of the types module: a label object and
its ordered timestamp-message value pairs. -/
structure LokiStream where
  stream : List (String × String)
  values : List (String × String)
deriving DecidableEq

/-- The LokiPushRequest interface of the types module: the body of one
push call. -/
structure LokiPushRequest where
  streams : List LokiStream
deriving DecidableEq

/-- One value pair of convertToLokiFormat: the entry timestamp (or the
current time when absent) scaled from milliseconds to nanoseconds and
rendered in decimal, paired with the message. -/
def lokiValue (now : Int) (log : LogEntry) : String × String :=
  (toString ((log.timestamp.getD now) * 1000000), log.message)

/-- JavaScript object update: writing a key that is already present
replaces its value in place, otherwise the binding is appended. -/
def jsObjSet (obj : List (String × String)) (k : String) (v : String) :
    List (String × String) :=
  if obj.any (fun p => p.1 = k) then
    obj.map (fun p => if p.1 = k then (p.1, v) else p)
  else obj ++ [(k, v)]

/-- The label object convertToLokiFormat builds for an entry, in
property creation order: severity and device identity first, then the
entry labels spread over them with JavaScript object-literal update
semantics.  Enumeration applies jsKeyOrder on top of this order. -/
def buildLabels (e : LogEntry) : List (String × String) :=
  e.labels.foldl (fun o p => jsObjSet o p.1 p.2)
    [("severity", e.severity), ("device_id", e.device_id)]

/-- A label object as a JSON value. -/
def labelsJson (ls : List (String × String)) : Json :=
  Json.obj (ls.map (fun p => (p.1, Json.str p.2)))

/-- The stream key of an entry: JSON.stringify of its label object. -/
def streamKey (e : LogEntry) : String := (labelsJson (buildLabels e)).stringify

/-- Insertion into the insertion-ordered stream map: if the key is
present the entry is pushed onto that group, otherwise a new group is
appended at the tail.  The label object stored with the first insertion
stands for the JSON.parse of the key performed by the source. -/
def mapAdd (m : List (String × List (String × String) × List LogEntry))
    (key : String) (labels : List (String × String)) (e : LogEntry) :
    List (String × List (String × String) × List LogEntry) :=
  match m with
  | [] => [(key, labels, [e])]
  | (k, l, es) :: rest =>
      if k = key then (k, l, es ++ [e]) :: rest
      else (k, l, es) :: mapAdd rest key labels e

/-- The grouping loop of convertToLokiFormat over the batch in order. -/
def groupEntries (entries : List LogEntry) :
    List (String × List (String × String) × List LogEntry) :=
  entries.foldl (fun m e => mapAdd m (streamKey e) (jsKeyOrder (buildLabels e)) e) []

/-- The convertToLokiFormat method: group the batch by stream key and
emit each group as a stream with its value pairs in group order. -/
def convertToLokiFormat (entries : List LogEntry) (now : Int) : LokiPushRequest :=
  { streams :=
      (groupEntries entries).map
        (fun g => { stream := g.2.1, values := g.2.2.map (lokiValue now) }) }

/-- Mutable state of the LokiService relevant to the claims: the live
buffer, the last flush time, the last error text, the shutdown flag and
the warnings the logger recorded. -/
structure LokiState where
  logBuffer : List LogEntry
  lastFlush : Option Int
  lastError : Option String
  isShuttingDown : Bool
  warnings : List String
deriving DecidableEq

/-- Warning text recorded when a failed batch is dropped. -/
def bufferFullWarn (n : Nat) : String :=
  "Log buffer full, dropping " ++ toString n ++ " logs"

/-- Warning text recorded when a log entry fails validation. -/
def invalidEntryWarn : String := "Invalid log entry, skipping"

/-- Warning text recorded when the service rejects logs during shutdown. -/
def shuttingDownWarn : String := "Service is shutting down, rejecting new logs"

/-- The flushLogs method.  An empty buffer returns immediately.
Otherwise the whole buffer is detached as the batch and the live buffer
is reset before delivery; the entries appended by other callers while the
send is awaited are the during parameter, so the live buffer holds
exactly those when the send resolves.  On success the last flush time is
set and the last error cleared; on failure the last error is recorded
and the batch is prepended back unless the live buffer already reached
1000 entries, in which case the batch is dropped with a warning.  The
second component is the batch a delivery was attempted for. -/
def flushLogs (st : LokiState) (during : List LogEntry)
    (send : LokiPushRequest → Except String Unit) (now : Int) :
    LokiState × Option (List LogEntry) :=
  if st.logBuffer.length = 0 then (st, none)
  else
    let logsToSend := st.logBuffer
    match send (convertToLokiFormat logsToSend now) with
    | Except.ok _ =>
        ({ st with logBuffer := during, lastFlush := some now, lastError := none },
         some logsToSend)
    | Except.error msg =>
        if during.length < 1000 then
          ({ st with logBuffer := logsToSend ++ during, lastError := some msg },
           some logsToSend)
        else
          let warned := st.warnings ++ [bufferFullWarn logsToSend.length]
          ({ st with logBuffer := during, lastError := some msg, warnings := warned },
           some logsToSend)

/-- The forceFlush method simply awaits flushLogs. -/
def forceFlush (st : LokiState) (during : List LogEntry)
    (send : LokiPushRequest → Except String Unit) (now : Int) :
    LokiState × Option (List LogEntry) :=
  flushLogs st during send now

/-- Validation applied at the ingestion boundary: a falsy message,
device identity or severity rejects the entry. -/
def invalidEntry (e : LogEntry) : Bool :=
  e.message = "" || e.device_id = "" || e.severity = ""

/-- Timestamp defaulting applied to an accepted entry. -/
def stampEntry (now : Int) (e : LogEntry) : LogEntry :=
  { e with timestamp := some (e.timestamp.getD now) }

/-- The pushLog method: rejected during shutdown; an invalid entry is
skipped with a warning and nothing else changes; a valid entry is
stamped and appended, and reaching the batch size triggers a flush. -/
def pushLog (st : LokiState) (entry : LogEntry) (now : Int) (batchSize : Nat)
    (during : List LogEntry) (send : LokiPushRequest → Except String Unit)
    (flushNow : Int) : LokiState :=
  if st.isShuttingDown then { st with warnings := st.warnings ++ [shuttingDownWarn] }
  else if invalidEntry entry then { st with warnings := st.warnings ++ [invalidEntryWarn] }
  else
    let st1 := { st with logBuffer := st.logBuffer ++ [stampEntry now entry] }
    if batchSize ≤ st1.logBuffer.length then (flushLogs st1 during send flushNow).1
    else st1

/-- The pushLogs method: rejected during shutdown; invalid entries are
filtered out with warnings, the rest are stamped and appended, and
reaching the batch size triggers a flush. -/
def pushLogs (st : LokiState) (entries : List LogEntry) (now : Int)
    (batchSize : Nat) (during : List LogEntry)
    (send : LokiPushRequest → Except String Unit) (flushNow : Int) : LokiState :=
  if st.isShuttingDown then { st with warnings := st.warnings ++ [shuttingDownWarn] }
  else
    let validEntries := (entries.filter (fun e => ¬ invalidEntry e)).map (stampEntry now)
    let st1 := { st with
      logBuffer := st.logBuffer ++ validEntries,
      warnings := st.warnings ++ (entries.filter invalidEntry).map (fun _ => invalidEntryWarn) }
    if batchSize ≤ st1.logBuffer.length then (flushLogs st1 during send flushNow).1
    else st1

/-- Spec formulation of severity steps two to five: topic hints in
order, then a level field through the alias table, then the keyword scan
of the content, defaulting to info. -/
def inferSpec (topic : String) (level : Option String) (content : String) : LogSeverity :=
  if strHas topic "/error" || strHas topic "/alert" then LogSeverity.error
  else if strHas topic "/warning" || strHas topic "/warn" then LogSeverity.warning
  else if strHas topic "/debug" then LogSeverity.debug
  else
    match level.bind (fun s => severityAlias (lowerText s)) with
    | some s => s
    | none => keywordScanText content

/-- Spec formulation of the five-step severity precedence: a recognized
explicit severity decides, otherwise steps two to five run. -/
def classifySpec (explicitSev : Option String) (topic : String)
    (level : Option String) (content : String) : LogSeverity :=
  match explicitSev.bind (fun s => severityAlias (lowerText s)) with
  | some s => s
  | none => inferSpec topic level content

/-- First-occurrence deduplication of a key list. -/
def dedupKeys (ks : List String) : List String :=
  ks.foldl (fun acc k => if k ∈ acc then acc else acc ++ [k]) []

/-- First of two entries whose label sets agree as sets but differ in
key order. -/
def ceEntry1 : LogEntry :=
  { message := "m1", device_id := "d", severity := "info", timestamp := some 0,
    labels := [("a", "1"), ("b", "2")] }

/-- Second of two entries whose label sets agree as sets but differ in
key order. -/
def ceEntry2 : LogEntry :=
  { message := "m2", device_id := "d", severity := "info", timestamp := some 0,
    labels := [("b", "2"), ("a", "1")] }

/-- A sample valid log entry used by witnesses. -/
def sampleEntry : LogEntry :=
  { message := "boot ok", device_id := "dev42", severity := "info",
    timestamp := some 1712345678901, labels := [] }

/-- A second sample valid log entry used by witnesses. -/
def sampleEntry2 : LogEntry :=
  { message := "temp high", device_id := "dev43", severity := "warning",
    timestamp := some 1712345678999, labels := [("zone", "a")] }

/-- A Loki service state holding one buffered entry. -/
def oneEntryState : LokiState :=
  { logBuffer := [sampleEntry], lastFlush := none, lastError := none,
    isShuttingDown := false, warnings := [] }

/-- A Loki service state with an empty buffer. -/
def emptyState : LokiState :=
  { logBuffer := [], lastFlush := none, lastError := none,
    isShuttingDown := false, warnings := [] }

/-- A send function that always succeeds. -/
def sendOk : LokiPushRequest → Except String Unit := fun _ => Except.ok ()

/-- A send function that always fails with a fixed description. -/
def sendFail : LokiPushRequest → Except String Unit := fun _ => Except.error "connect ECONNREFUSED"

/-- An entry fit to live in the buffer: message, device identity and
severity populated and a timestamp present. -/
def goodEntry (e : LogEntry) : Prop :=
  e.message ≠ "" ∧ e.device_id ≠ "" ∧ e.severity ≠ "" ∧ e.timestamp.isSome = true

/-- An entry with an empty message, used to exercise rejection. -/
def badEntry : LogEntry :=
  { message := "", device_id := "d", severity := "info", timestamp := none, labels := [] }

/-- C10: flushing an empty buffer is a no-op — flushLogs and forceFlush
return immediately without attempting delivery and leave the buffer, the
last flush time and the last error unchanged. -/
theorem flush_empty_noop (st : LokiState) (during : List LogEntry)
    (send : LokiPushRequest → Except String Unit) (now : Int)
    (h : st.logBuffer = []) :
    flushLogs st during send now = (st, none) ∧
    forceFlush st during send now = (st, none) := by
  unfold forceFlush flushLogs
  rw [h]
  simp

/-- Witness for flush_empty_noop at a concrete empty state. -/
theorem flush_empty_noop_witness :
    flushLogs emptyState [] sendOk 0 = (emptyState, none) ∧
    forceFlush emptyState [] sendOk 0 = (emptyState, none) :=
  flush_empty_noop emptyState [] sendOk 0 rfl

/-- C1: when the delivery of a non-empty batch fails, the last error is
set to the failure description; if the live buffer (the entries appended
during the attempt) is below the 1000-entry threshold the whole batch is
prepended back in order ahead of those entries with no warning, and
otherwise none of the batch is retained and a warning is recorded. -/
theorem flush_failure_policy (st : LokiState) (during : List LogEntry)
    (send : LokiPushRequest → Except String Unit) (msg : String) (now : Int)
    (hne : st.logBuffer ≠ [])
    (hsend : send (convertToLokiFormat st.logBuffer now) = Except.error msg) :
    (flushLogs st during send now).1.lastError = some msg ∧
    (during.length < 1000 →
      (flushLogs st during send now).1.logBuffer = st.logBuffer ++ during ∧
      (flushLogs st during send now).1.warnings = st.warnings) ∧
    (1000 ≤ during.length →
      (flushLogs st during send now).1.logBuffer = during ∧
      (flushLogs st during send now).1.warnings =
        st.warnings ++ [bufferFullWarn st.logBuffer.length]) := by
  have hlen : ¬ st.logBuffer.length = 0 := by
    simpa [List.length_eq_zero] using hne
  by_cases hd : during.length < 1000
  · simp [flushLogs, hlen, hsend, hd]
  · simp [flushLogs, hlen, hsend, hd]

/-- Witness for flush_failure_policy at a concrete failing delivery. -/
theorem flush_failure_policy_witness :
    (flushLogs oneEntryState [sampleEntry2] sendFail 7).1.lastError =
      some "connect ECONNREFUSED" ∧
    (([sampleEntry2] : List LogEntry).length < 1000 →
      (flushLogs oneEntryState [sampleEntry2] sendFail 7).1.logBuffer =
        oneEntryState.logBuffer ++ [sampleEntry2] ∧
      (flushLogs oneEntryState [sampleEntry2] sendFail 7).1.warnings =
        oneEntryState.warnings) ∧
    (1000 ≤ ([sampleEntry2] : List LogEntry).length →
      (flushLogs oneEntryState [sampleEntry2] sendFail 7).1.logBuffer = [sampleEntry2] ∧
      (flushLogs oneEntryState [sampleEntry2] sendFail 7).1.warnings =
        oneEntryState.warnings ++ [bufferFullWarn oneEntryState.logBuffer.length]) :=
  flush_failure_policy oneEntryState [sampleEntry2] sendFail "connect ECONNREFUSED" 7
    (by simp [oneEntryState]) rfl

/-- Helper: a flush of a non-empty buffer always reports the detached
buffer contents as the attempted batch, whatever the delivery outcome. -/
theorem flush_batch_eq (st : LokiState) (during : List LogEntry)
    (send : LokiPushRequest → Except String Unit) (now : Int)
    (hne : st.logBuffer ≠ []) :
    (flushLogs st during send now).2 = some st.logBuffer := by
  have hlen : ¬ st.logBuffer.length = 0 := by
    simpa [List.length_eq_zero] using hne
  cases hsend : send (convertToLokiFormat st.logBuffer now) with
  | ok u => simp [flushLogs, hlen, hsend]
  | error msg =>
      by_cases hd : during.length < 1000 <;> simp [flushLogs, hlen, hsend, hd]

/-- C2: a flush of a non-empty buffer detaches exactly the current buffer
contents as the attempted batch, independent of the entries appended
while the delivery is in flight; on success the live buffer afterwards is
exactly those appended entries, each occurring exactly as many times as
it was appended, and a subsequent flush attempts exactly that list as its
batch. -/
theorem flush_detach_semantics (st : LokiState) (during : List LogEntry)
    (send : LokiPushRequest → Except String Unit) (now : Int)
    (hne : st.logBuffer ≠ []) :
    (flushLogs st during send now).2 = some st.logBuffer ∧
    (send (convertToLokiFormat st.logBuffer now) = Except.ok () →
      (flushLogs st during send now).1.logBuffer = during ∧
      (∀ e : LogEntry, (flushLogs st during send now).1.logBuffer.count e = during.count e) ∧
      (during ≠ [] →
        ∀ (during2 : List LogEntry) (send2 : LokiPushRequest → Except String Unit) (now2 : Int),
          (flushLogs (flushLogs st during send now).1 during2 send2 now2).2 = some during)) := by
  have hlen : ¬ st.logBuffer.length = 0 := by
    simpa [List.length_eq_zero] using hne
  constructor
  · exact flush_batch_eq st during send now hne
  · intro hsend
    have hbuf : (flushLogs st during send now).1.logBuffer = during := by
      simp [flushLogs, hlen, hsend]
    refine ⟨hbuf, fun e => by rw [hbuf], ?_⟩
    intro hdne during2 send2 now2
    have h2 := flush_batch_eq (flushLogs st during send now).1 during2 send2 now2
      (by rw [hbuf]; exact hdne)
    rw [hbuf] at h2
    exact h2

/-- Witness for flush_detach_semantics at a concrete successful flush. -/
theorem flush_detach_semantics_witness :
    (flushLogs oneEntryState [sampleEntry2] sendOk 7).2 = some oneEntryState.logBuffer ∧
    (sendOk (convertToLokiFormat oneEntryState.logBuffer 7) = Except.ok () →
      (flushLogs oneEntryState [sampleEntry2] sendOk 7).1.logBuffer = [sampleEntry2] ∧
      (∀ e : LogEntry,
        (flushLogs oneEntryState [sampleEntry2] sendOk 7).1.logBuffer.count e =
          ([sampleEntry2] : List LogEntry).count e) ∧
      (([sampleEntry2] : List LogEntry) ≠ [] →
        ∀ (during2 : List LogEntry) (send2 : LokiPushRequest → Except String Unit) (now2 : Int),
          (flushLogs (flushLogs oneEntryState [sampleEntry2] sendOk 7).1 during2 send2 now2).2 =
            some [sampleEntry2])) :=
  flush_detach_semantics oneEntryState [sampleEntry2] sendOk 7 (by simp [oneEntryState])

/-- C5 counterexample: a payload with explicit severity warn on a topic
containing the error hint classifies as warning, not error, because the
recognized explicit field decides before the topic is consulted. -/
theorem explicit_warn_topic_error_counterexample :
    classifySeverity "smtrack/d1/error"
        (Json.obj [("severity", Json.str "warn"), ("message", Json.str "x")]) =
      Except.ok (SeverityValue.sev LogSeverity.warning) ∧
    classifySeverity "smtrack/d1/error"
        (Json.obj [("severity", Json.str "warn"), ("message", Json.str "x")]) ≠
      Except.ok (SeverityValue.sev LogSeverity.error) := by
  constructor
  · decide
  · decide

/-- C5 amended: an entry carrying the explicit severity string warn
classifies as warning on every topic, error-hinting topics included —
the recognized explicit field takes precedence over the topic hints. -/
theorem explicit_warn_wins (topic : String) (msg : String) :
    classifySeverity topic
        (Json.obj [("severity", Json.str "warn"), ("message", Json.str msg)]) =
      Except.ok (SeverityValue.sev LogSeverity.warning) := rfl

/-- C6: device-identity derivation splits the topic on slash and takes
the second segment when there are at least three, the first when there
are exactly two, and yields unknown for a single-segment topic, where no
second-to-last segment exists. -/
theorem device_identity_rule (topic : String) :
    (3 ≤ (topicParts topic).length →
      extractDeviceIdFromTopic topic = (topicParts topic).getD 1 "") ∧
    ((topicParts topic).length = 2 →
      extractDeviceIdFromTopic topic = (topicParts topic).getD 0 "") ∧
    ((topicParts topic).length = 1 →
      extractDeviceIdFromTopic topic = "unknown") := by
  refine ⟨?_, ?_, ?_⟩ <;> intro h <;> simp only [extractDeviceIdFromTopic]
  · simp [h]
  · rw [h]
    norm_num
  · rw [h]
    norm_num [jsElem]

/-- Witness for device_identity_rule on a three-segment topic. -/
theorem device_identity_rule_witness :
    extractDeviceIdFromTopic "smtrack/dev42/logs" =
      (topicParts "smtrack/dev42/logs").getD 1 "" :=
  (device_identity_rule "smtrack/dev42/logs").1 (by decide)

/-- Helper: the buffer left by a flush is the old buffer, the appends
made during the attempt, or the failed batch prepended to them. -/
theorem flush_buffer_cases (st : LokiState) (during : List LogEntry)
    (send : LokiPushRequest → Except String Unit) (now : Int) :
    (flushLogs st during send now).1.logBuffer = st.logBuffer ∨
    (flushLogs st during send now).1.logBuffer = during ∨
    (flushLogs st during send now).1.logBuffer = st.logBuffer ++ during := by
  by_cases h0 : st.logBuffer.length = 0
  · left
    simp [flushLogs, h0]
  · cases hsend : send (convertToLokiFormat st.logBuffer now) with
    | ok u =>
        right; left
        simp [flushLogs, h0, hsend]
    | error msg =>
        by_cases hd : during.length < 1000
        · right; right
          simp [flushLogs, h0, hsend, hd]
        · right; left
          simp [flushLogs, h0, hsend, hd]

/-- Helper: flushing preserves well-formedness of every buffered entry,
provided the entries appended during the attempt are well formed. -/
theorem flush_good (st : LokiState) (during : List LogEntry)
    (send : LokiPushRequest → Except String Unit) (now : Int)
    (hbuf : ∀ e ∈ st.logBuffer, goodEntry e)
    (hdur : ∀ e ∈ during, goodEntry e) :
    ∀ e ∈ (flushLogs st during send now).1.logBuffer, goodEntry e := by
  intro e he
  rcases flush_buffer_cases st during send now with h | h | h <;> rw [h] at he
  · exact hbuf e he
  · exact hdur e he
  · rcases List.mem_append.mp he with h2 | h2
    · exact hbuf e h2
    · exact hdur e h2

/-- Helper: a stamped entry that passed validation is well formed. -/
theorem stamp_good (now : Int) (e : LogEntry) (h : invalidEntry e = false) :
    goodEntry (stampEntry now e) := by
  simp only [invalidEntry, Bool.or_eq_false_iff, decide_eq_false_iff_not] at h
  exact ⟨h.1.1, h.1.2, h.2, by simp [stampEntry]⟩

/-- C9: the append operations preserve the buffer invariant — an entry
with an empty message, device identity or severity is rejected at the
boundary leaving the buffer untouched, and after any pushLog or pushLogs
call every buffered entry has those fields populated and carries a
timestamp, assuming the buffer and the concurrent appends already did. -/
theorem push_validation_invariant (st : LokiState) (entry : LogEntry)
    (entries : List LogEntry) (now : Int) (batchSize : Nat)
    (during : List LogEntry) (send : LokiPushRequest → Except String Unit)
    (flushNow : Int)
    (hbuf : ∀ e ∈ st.logBuffer, goodEntry e)
    (hdur : ∀ e ∈ during, goodEntry e) :
    (invalidEntry entry = true →
      (pushLog st entry now batchSize during send flushNow).logBuffer = st.logBuffer) ∧
    (∀ e ∈ (pushLog st entry now batchSize during send flushNow).logBuffer, goodEntry e) ∧
    (∀ e ∈ (pushLogs st entries now batchSize during send flushNow).logBuffer, goodEntry e) := by
  refine ⟨?_, ?_, ?_⟩
  · intro hinv
    by_cases hs : st.isShuttingDown <;> simp [pushLog, hs, hinv]
  · by_cases hs : st.isShuttingDown
    · simpa [pushLog, hs] using hbuf
    · by_cases hinv : invalidEntry entry
      · simpa [pushLog, hs, hinv] using hbuf
      · have hgood : ∀ e ∈ st.logBuffer ++ [stampEntry now entry], goodEntry e := by
          intro e he
          rcases List.mem_append.mp he with h2 | h2
          · exact hbuf e h2
          · rw [List.mem_singleton.mp h2]
            exact stamp_good now entry (by simpa using hinv)
        intro e he
        rw [pushLog] at he
        simp only [hs, Bool.false_eq_true, if_false, hinv] at he
        split at he
        · exact flush_good _ during send flushNow (fun x hx => hgood x hx) hdur e he
        · exact hgood e he
  · by_cases hs : st.isShuttingDown
    · simpa [pushLogs, hs] using hbuf
    · have hgood : ∀ e ∈ st.logBuffer ++
          (entries.filter (fun e => ¬ invalidEntry e)).map (stampEntry now), goodEntry e := by
        intro e he
        rcases List.mem_append.mp he with h2 | h2
        · exact hbuf e h2
        · rcases List.mem_map.mp h2 with ⟨a, ha, rfl⟩
          have hmem := List.of_mem_filter ha
          exact stamp_good now a (by simpa using hmem)
      intro e he
      rw [pushLogs] at he
      simp only [hs, Bool.false_eq_true, if_false] at he
      split at he
      · exact flush_good _ during send flushNow (fun x hx => hgood x hx) hdur e he
      · exact hgood e he

/-- Witness for push_validation_invariant at a concrete rejection. -/
theorem push_validation_invariant_witness :
    (invalidEntry badEntry = true →
      (pushLog emptyState badEntry 0 3 [] sendOk 0).logBuffer = emptyState.logBuffer) ∧
    (∀ e ∈ (pushLog emptyState badEntry 0 3 [] sendOk 0).logBuffer, goodEntry e) ∧
    (∀ e ∈ (pushLogs emptyState [sampleEntry] 0 3 [] sendOk 0).logBuffer, goodEntry e) :=
  push_validation_invariant emptyState badEntry
    [sampleEntry] 0 3 [] sendOk 0 (by simp [emptyState]) (by simp)

/-- Helper: inferMessageType on the wrapper object built for a plain
text payload never throws. -/
theorem infer_plain_ok (topic : String) (text : String) :
    ∃ s, inferMessageType topic (Json.obj [("message", Json.str text)]) = Except.ok s := by
  unfold inferMessageType
  split
  · exact ⟨_, rfl⟩
  · split
    · exact ⟨_, rfl⟩
    · split
      · exact ⟨_, rfl⟩
      · exact ⟨_, rfl⟩

/-- Helper: the plain-text fallback always yields a message. -/
theorem createPlain_ok (text : String) (topic : String) (now : Int) :
    ∃ m, createPlainTextMessage text topic now = Except.ok m := by
  obtain ⟨s, hs⟩ := infer_plain_ok topic text
  refine ⟨{ deviceId := extractDeviceIdFromTopic topic, message := text,
            severity := s, metadata := none, timestamp := some now }, ?_⟩
  unfold createPlainTextMessage
  rw [hs]

/-- Helper: the inner try block of handleMessage always yields a
message. -/
theorem innerNormalize_ok (topic : String) (raw : String) (parsed : Option Json)
    (now : Int) : ∃ m, innerNormalize topic raw parsed now = Except.ok m := by
  obtain ⟨m0, hm0⟩ := createPlain_ok raw topic now
  cases parsed with
  | none => exact ⟨m0, hm0⟩
  | some j =>
      cases hn : normalizeMessage j topic now with
      | ok m =>
          refine ⟨m, ?_⟩
          show (match normalizeMessage j topic now with
                | Except.ok m => Except.ok m
                | Except.error _ => createPlainTextMessage raw topic now) = Except.ok m
          rw [hn]
      | error err =>
          refine ⟨m0, ?_⟩
          show (match normalizeMessage j topic now with
                | Except.ok m => Except.ok m
                | Except.error _ => createPlainTextMessage raw topic now) = Except.ok m0
          rw [hn]
          exact hm0

/-- C3: normalization is total — for every topic and every payload, of
any JSON value shape or unparseable, handleMessage produces a log entry
and never surfaces a failure: throws during structured normalization are
caught by the plain-text fallback. -/
theorem normalize_total (topic : String) (p : RawPayload) (now : Int) :
    ∃ e : LogEntry, handleMessage topic p now = Except.ok e := by
  obtain ⟨m, hm⟩ := innerNormalize_ok topic p.raw p.parsed now
  refine ⟨convertToLogEntry m now, ?_⟩
  unfold handleMessage
  rw [hm]

/-- Helper: with a level field that is absent or a string that does not
reach the prototype chain, the source inference agrees with spec steps
two to five. -/
theorem infer_level_eq (topic : String) (j : Json) (levF : Option String)
    (h2 : j.getField "level" = Except.ok (levF.map Json.str))
    (hl : ∀ s ∈ levF, lowerText s ≠ "constructor" ∧ lowerText s ≠ "__proto__") :
    inferMessageType topic j =
      Except.ok (SeverityValue.sev (inferSpec topic levF (contentText j))) := by
  unfold inferMessageType inferSpec
  by_cases hb1 : (strHas topic "/error" || strHas topic "/alert") = true
  · simp [hb1]
  · simp only [hb1, Bool.false_eq_true, if_false]
    by_cases hb2 : (strHas topic "/warning" || strHas topic "/warn") = true
    · simp [hb2]
    · simp only [hb2, Bool.false_eq_true, if_false]
      by_cases hb3 : strHas topic "/debug" = true
      · simp [hb3]
      · simp only [hb3, Bool.false_eq_true, if_false]
        rw [h2]
        cases levF with
        | none => rfl
        | some s =>
            by_cases hs : s = ""
            · subst hs
              rfl
            · have htruthy : (Json.str s).truthy = true := by
                simp [Json.truthy, hs]
              have hnj := hl s rfl
              cases halias : severityAlias (lowerText s) with
              | none =>
                  have hmg : severityMapGet (lowerText s) = SeverityLookup.undef := by
                    unfold severityMapGet
                    rw [halias]
                    simp [hnj.1, hnj.2]
                  simp only [Option.map_some', Option.some_bind, htruthy, if_true,
                    mapToLogSeverity, halias, hmg]
              | some sev =>
                  have hmg : severityMapGet (lowerText s) = SeverityLookup.found sev := by
                    unfold severityMapGet
                    rw [halias]
                  simp only [Option.map_some', Option.some_bind, htruthy, if_true,
                    mapToLogSeverity, halias, hmg]

/-- C4 counterexample: an explicit severity string unknown to the alias
table does not always fall through to the topic rule — on the key
constructor the bracket lookup hits the prototype chain of the
severityMap object literal, so a payload with explicit severity
constructor on an error-hinting topic yields the leaked truthy value
instead of the error severity the claimed precedence demands. -/
theorem severity_prototype_counterexample :
    classifySeverity "iot/d1/error"
        (Json.obj [("severity", Json.str "constructor")]) =
      Except.ok SeverityValue.protoJunk ∧
    classifySeverity "iot/d1/error"
        (Json.obj [("severity", Json.str "constructor")]) ≠
      Except.ok (SeverityValue.sev LogSeverity.error) := by
  constructor
  · decide
  · decide

/-- C4 amended: severity classification follows the five-step precedence
with first match winning for every payload whose explicit severity and
level fields are each absent or a string, provided those strings do not
lowercase to constructor or the proto key, on which the prototype-chain
lookup short-circuits classification with a non-severity value; and in
particular a message on an error-hinting topic with no explicit severity
classifies as error even though its content contains the word warn. -/
theorem severity_precedence_guarded :
    (∀ (topic : String) (j : Json) (sevF levF : Option String),
      j.getField "severity" = Except.ok (sevF.map Json.str) →
      j.getField "level" = Except.ok (levF.map Json.str) →
      (∀ s ∈ sevF, lowerText s ≠ "constructor" ∧ lowerText s ≠ "__proto__") →
      (∀ s ∈ levF, lowerText s ≠ "constructor" ∧ lowerText s ≠ "__proto__") →
      classifySeverity topic j =
        Except.ok (SeverityValue.sev (classifySpec sevF topic levF (contentText j)))) ∧
    classifySeverity "site/dev1/error"
        (Json.obj [("message", Json.str "warn: low battery")]) =
      Except.ok (SeverityValue.sev LogSeverity.error) := by
  constructor
  · intro topic j sevF levF h1 h2 hsev hlev
    unfold classifySeverity classifySpec
    rw [h1]
    cases sevF with
    | none =>
        simp only [Option.map_none', Option.none_bind, mapToLogSeverity]
        exact infer_level_eq topic j levF h2 hlev
    | some s =>
        by_cases hs : s = ""
        · subst hs
          have htruthy : (Json.str "").truthy = false := by decide
          have halias0 : severityAlias (lowerText "") = none := by decide
          simp only [Option.map_some', Option.some_bind, mapToLogSeverity, htruthy,
            Bool.false_eq_true, if_false, halias0]
          exact infer_level_eq topic j levF h2 hlev
        · have htruthy : (Json.str s).truthy = true := by
            simp [Json.truthy, hs]
          have hnj := hsev s rfl
          cases halias : severityAlias (lowerText s) with
          | none =>
              have hmg : severityMapGet (lowerText s) = SeverityLookup.undef := by
                unfold severityMapGet
                rw [halias]
                simp [hnj.1, hnj.2]
              simp only [Option.map_some', Option.some_bind, mapToLogSeverity, htruthy,
                if_true, halias, hmg]
              exact infer_level_eq topic j levF h2 hlev
          | some sev =>
              have hmg : severityMapGet (lowerText s) = SeverityLookup.found sev := by
                unfold severityMapGet
                rw [halias]
              simp only [Option.map_some', Option.some_bind, mapToLogSeverity, htruthy,
                if_true, halias, hmg]
  · decide

/-- Witness for the quantified half of severity_precedence_guarded at a
payload with an explicit recognized severity. -/
theorem severity_precedence_guarded_witness :
    classifySeverity "a/b" (Json.obj [("severity", Json.str "ERR")]) =
      Except.ok (SeverityValue.sev (classifySpec (some "ERR") "a/b" none
        (contentText (Json.obj [("severity", Json.str "ERR")])))) :=
  severity_precedence_guarded.1 "a/b" (Json.obj [("severity", Json.str "ERR")])
    (some "ERR") none rfl rfl
    (fun s hs => by
      rw [Option.mem_def] at hs
      injection hs with h
      subst h
      exact ⟨by decide, by decide⟩)
    (fun s hs => by simp at hs)

/-- Helper: membership in the dedup fold accumulator. -/
theorem dedup_fold_mem (ks : List String) :
    ∀ (acc : List String) (x : String),
      x ∈ ks.foldl (fun acc k => if k ∈ acc then acc else acc ++ [k]) acc ↔
        x ∈ acc ∨ x ∈ ks := by
  induction ks with
  | nil => simp
  | cons a t ih =>
      intro acc x
      simp only [List.foldl_cons, ih, List.mem_cons]
      by_cases ha : a ∈ acc
      · simp only [ha, if_true]
        constructor
        · rintro (h | h)
          · exact Or.inl h
          · exact Or.inr (Or.inr h)
        · rintro (h | h | h)
          · exact Or.inl h
          · exact Or.inl (h ▸ ha)
          · exact Or.inr h
      · simp only [ha, if_false, List.mem_append, List.mem_singleton]
        tauto

/-- Helper: membership in the deduplicated key list. -/
theorem dedup_mem (ks : List String) (x : String) :
    x ∈ dedupKeys ks ↔ x ∈ ks := by
  unfold dedupKeys
  rw [dedup_fold_mem]
  simp

/-- Helper: the dedup fold keeps the accumulator duplicate-free. -/
theorem dedup_fold_nodup (ks : List String) :
    ∀ (acc : List String), acc.Nodup →
      (ks.foldl (fun acc k => if k ∈ acc then acc else acc ++ [k]) acc).Nodup := by
  induction ks with
  | nil => exact fun acc h => h
  | cons a t ih =>
      intro acc hacc
      simp only [List.foldl_cons]
      by_cases ha : a ∈ acc
      · simp only [ha, if_true]
        exact ih acc hacc
      · simp only [ha, if_false]
        refine ih _ ?_
        simpa [List.nodup_append, hacc] using ha

/-- Helper: the deduplicated key list is duplicate-free. -/
theorem dedup_nodup (ks : List String) : (dedupKeys ks).Nodup :=
  dedup_fold_nodup ks [] List.nodup_nil

/-- Helper: appending one key to the input either leaves the dedup list
unchanged or appends the key, by presence. -/
theorem dedup_append (ks : List String) (k : String) :
    dedupKeys (ks ++ [k]) =
      if k ∈ ks then dedupKeys ks else dedupKeys ks ++ [k] := by
  have h1 : dedupKeys (ks ++ [k]) =
      if k ∈ dedupKeys ks then dedupKeys ks else dedupKeys ks ++ [k] := by
    unfold dedupKeys
    rw [List.foldl_append]
    rfl
  rw [h1]
  by_cases hk : k ∈ ks
  · rw [if_pos ((dedup_mem ks k).mpr hk), if_pos hk]
  · rw [if_neg (fun h => hk ((dedup_mem ks k).mp h)), if_neg hk]

/-- Helper: inserting a fresh key into the stream map appends a new
group at the tail. -/
theorem mapAdd_absent (m : List (String × List (String × String) × List LogEntry))
    (key : String) (labels : List (String × String)) (e : LogEntry)
    (h : ∀ g ∈ m, g.1 ≠ key) :
    mapAdd m key labels e = m ++ [(key, labels, [e])] := by
  induction m with
  | nil => rfl
  | cons g t ih =>
      obtain ⟨k, l, es⟩ := g
      have hk : k ≠ key := h (k, l, es) (List.mem_cons_self _ _)
      simp only [mapAdd, hk, if_false]
      rw [ih (fun g hg => h g (List.mem_cons_of_mem _ hg))]
      rfl

/-- Helper: inserting a fresh key into a map indexed by distinct keys. -/
theorem mapAdd_map_absent (ds : List String) (lab : String → List (String × String))
    (grp : String → List LogEntry) (key : String)
    (labels : List (String × String)) (e : LogEntry) (hout : key ∉ ds) :
    mapAdd (ds.map (fun k => (k, lab k, grp k))) key labels e =
      ds.map (fun k => (k, lab k, grp k)) ++ [(key, labels, [e])] := by
  apply mapAdd_absent
  intro g hg
  rcases List.mem_map.mp hg with ⟨k, hk, rfl⟩
  exact fun h => hout (h ▸ hk)

/-- Helper: inserting a present key into a map indexed by distinct keys
appends the entry to exactly that group. -/
theorem mapAdd_map_present (ds : List String) (lab : String → List (String × String))
    (grp : String → List LogEntry) (key : String)
    (labels : List (String × String)) (e : LogEntry)
    (hnd : ds.Nodup) (hin : key ∈ ds) :
    mapAdd (ds.map (fun k => (k, lab k, grp k))) key labels e =
      ds.map (fun k => (k, lab k, if k = key then grp k ++ [e] else grp k)) := by
  induction ds with
  | nil => cases hin
  | cons d t ih =>
      simp only [List.map_cons, mapAdd]
      by_cases hd : d = key
      · subst hd
        have hdt : d ∉ t := (List.nodup_cons.mp hnd).1
        simp only [if_pos rfl, if_true]
        congr 1
        apply List.map_congr_left
        intro k hk
        have : k ≠ d := fun h => hdt (h ▸ hk)
        simp [this]
      · have hint : key ∈ t := by
          rcases List.mem_cons.mp hin with h | h
          · exact absurd h.symm hd
          · exact h
        simp only [hd, if_false]
        rw [ih (List.nodup_cons.mp hnd).2 hint]

/-- Helper: the grouping loop produces, in first-occurrence key order,
one group per distinct stream key holding the label object of the first
entry with that key and the entries with that key in batch order. -/
theorem groupEntries_spec (entries : List LogEntry) :
    groupEntries entries =
      (dedupKeys (entries.map streamKey)).map (fun k =>
        (k, ((entries.find? (fun x => decide (streamKey x = k))).map
              (fun x => jsKeyOrder (buildLabels x))).getD [],
         entries.filter (fun x => decide (streamKey x = k)))) := by
  induction entries using List.reverseRecOn with
  | nil => rfl
  | append_singleton es e ih =>
      have hL : groupEntries (es ++ [e]) =
          mapAdd (groupEntries es) (streamKey e) (jsKeyOrder (buildLabels e)) e := by
        unfold groupEntries
        rw [List.foldl_append]
        rfl
      have hmap : (es ++ [e]).map streamKey = es.map streamKey ++ [streamKey e] := by
        rw [List.map_append]
        rfl
      rw [hL, ih, hmap, dedup_append]
      by_cases hk : streamKey e ∈ es.map streamKey
      · rw [if_pos hk]
        rw [mapAdd_map_present _ _ _ _ _ _ (dedup_nodup _) ((dedup_mem _ _).mpr hk)]
        apply List.map_congr_left
        intro k hk2
        have hk3 : k ∈ es.map streamKey := (dedup_mem _ _).mp hk2
        rcases List.mem_map.mp hk3 with ⟨w, hw, hwk⟩
        have hfind : ∃ a, es.find? (fun x => decide (streamKey x = k)) = some a := by
          have : (es.find? (fun x => decide (streamKey x = k))).isSome = true := by
            rw [List.find?_isSome]
            exact ⟨w, hw, by simp [hwk]⟩
          exact Option.isSome_iff_exists.mp this
        rcases hfind with ⟨a, ha⟩
        have hfind2 : (es ++ [e]).find? (fun x => decide (streamKey x = k)) = some a := by
          rw [List.find?_append, ha]
          rfl
        rw [List.filter_append, hfind2, ha]
        by_cases hke : streamKey e = k
        · have : (List.filter (fun x => decide (streamKey x = k)) [e]) = [e] := by
            simp [List.filter, hke]
          rw [this]
          simp [hke]
        · have : (List.filter (fun x => decide (streamKey x = k)) [e]) = [] := by
            simp [List.filter, hke]
          rw [this]
          have hne : ¬ k = streamKey e := fun h => hke h.symm
          simp [hne]
      · rw [if_neg hk]
        rw [mapAdd_map_absent _ _ _ _ _ _ (fun h => hk ((dedup_mem _ _).mp h))]
        rw [List.map_append]
        congr 1
        · apply List.map_congr_left
          intro k hk2
          have hk3 : k ∈ es.map streamKey := (dedup_mem _ _).mp hk2
          rcases List.mem_map.mp hk3 with ⟨w, hw, hwk⟩
          have hne : ¬ streamKey e = k := fun h => hk (h ▸ hk3)
          have hfind : ∃ a, es.find? (fun x => decide (streamKey x = k)) = some a := by
            have : (es.find? (fun x => decide (streamKey x = k))).isSome = true := by
              rw [List.find?_isSome]
              exact ⟨w, hw, by simp [hwk]⟩
            exact Option.isSome_iff_exists.mp this
          rcases hfind with ⟨a, ha⟩
          have hfind2 : (es ++ [e]).find? (fun x => decide (streamKey x = k)) = some a := by
            rw [List.find?_append, ha]
            rfl
          have hfe : (List.filter (fun x => decide (streamKey x = k)) [e]) = [] := by
            simp [List.filter, hne]
          rw [List.filter_append, hfind2, ha, hfe]
          simp
        · have hnone : es.find? (fun x => decide (streamKey x = (streamKey e))) = none := by
            rw [List.find?_eq_none]
            intro x hx
            simp only [decide_eq_true_eq]
            exact fun h => hk (h ▸ List.mem_map_of_mem streamKey hx)
          have hfes : (List.filter (fun x => decide (streamKey x = streamKey e)) es) = [] := by
            rw [List.filter_eq_nil_iff]
            intro x hx
            simp only [decide_eq_true_eq]
            exact fun h => hk (h ▸ List.mem_map_of_mem streamKey hx)
          have hfind2 : (es ++ [e]).find? (fun x => decide (streamKey x = streamKey e)) = some e := by
            rw [List.find?_append, hnone]
            simp [List.find?]
          simp only [List.map_cons, List.map_nil]
          rw [hfind2, List.filter_append, hfes]
          simp [List.filter]

/-- C7 amended: grouping partitions the batch by the serialized label
object — two entries merge into one stream exactly when their label
objects stringify to the same key string, which compares the key-value
pairs by value in JavaScript own-property order: array-index keys first
in ascending numeric order, then the remaining keys in insertion order;
the streams appear in first-occurrence order, each carrying the label
object of its first entry in that same property order, and within a
stream the value pairs keep the relative batch order. -/
theorem grouping_by_serialized_labels (entries : List LogEntry) (now : Int) :
    (convertToLokiFormat entries now).streams =
      (dedupKeys (entries.map streamKey)).map (fun k =>
        { stream := ((entries.find? (fun x => decide (streamKey x = k))).map
            (fun x => jsKeyOrder (buildLabels x))).getD []
          values := (entries.filter (fun x => decide (streamKey x = k))).map (lokiValue now) }) := by
  unfold convertToLokiFormat
  rw [groupEntries_spec, List.map_map]
  rfl

/-- C7 counterexample: two entries whose label sets are equal as
key-value sets but listed in different key orders do not merge — the
batch of the two yields two streams, refuting key-order independence. -/
theorem grouping_keyorder_counterexample :
    (buildLabels ceEntry1).Perm (buildLabels ceEntry2) ∧
    (convertToLokiFormat [ceEntry1, ceEntry2] 0).streams.length = 2 := by
  constructor
  · decide
  · rfl
